import Mathlib

/-!
# FI-MCP: verification of the introspection-to-schema pipeline

Shallow embedding of the FI-MCP repository (files `fi_mcp/introspection.py`,
`fi_mcp/schema_generator.py`, `fi_mcp/server.py`) and proofs about it.

Modelling conventions:
* Python `None` is the `Value.none` constructor of a small universe of
  request-payload values; a request payload (`arguments` dict) is an
  association list with unique keys, looked up via `List.lookup`.
* An `inspect.signature` parameter list is an ordered `List Param`; a
  parameter default of `Option.none` models the `inspect.Parameter.empty`
  sentinel (no default), while `Option.some v` models a declared default
  (which may itself be Python `None`, i.e. `Value.none`).
* Python type annotations are the inductive `PyAnnot` together with
  their textual form (`str(annotation)`), mirroring CPython's rendering:
  a plain class renders as `<class 'name'>` at top level and as its bare
  name inside a `typing` generic; `typing.List`, `typing.Dict` and
  `typing.Literal` render with the `typing.` prefix.
* Exceptions raised by a handler are an explicit `Except`/sum constructor.
-/

namespace FIMCP

/-- Whitespace as recognised by Python's `str.strip()` and the `\s` regex
class, restricted to the ASCII range: space, tab, newline, carriage
return, vertical tab, form feed. -/
def pyIsSpace (c : Char) : Bool :=
  c = ' ' || c = '\t' || c = '\n' || c = '\r' ||
    c = Char.ofNat 11 || c = Char.ofNat 12

/-- Python `str.strip()` on a character list: drop whitespace from both ends. -/
def pyStripL (s : List Char) : List Char :=
  ((s.dropWhile pyIsSpace).reverse.dropWhile pyIsSpace).reverse

/-- Python `str.strip()`. -/
def pyStrip (s : String) : String :=
  ⟨pyStripL s.data⟩

/-- Python `str.split()` with no argument: the maximal whitespace-free
tokens, in order (no empty tokens). -/
def wsTokens : List Char → List (List Char)
  | [] => []
  | c :: rest =>
    if pyIsSpace c then wsTokens rest
    else
      match rest.head? with
      | Option.some c2 =>
        if pyIsSpace c2 then [c] :: wsTokens rest
        else
          match wsTokens rest with
          | t :: ts => (c :: t) :: ts
          | [] => [[c]]
      | Option.none => [[c]]

/-- Python `re.sub(r'\s+', ' ', s).strip()` (equivalently `' '.join(s.split())`):
collapse every whitespace run to a single space and trim the ends. -/
def collapseWsL (s : List Char) : List Char :=
  List.intercalate [' '] (wsTokens s)

/-- `collapseWsL` on strings. -/
def collapseWs (s : String) : String :=
  ⟨collapseWsL s.data⟩

/-- Python `sep.join(items)`. -/
def joinSep (sep : String) : List String → String
  | [] => ""
  | [v] => v
  | v :: w :: rest => v ++ sep ++ joinSep sep (w :: rest)

/-- The universe of JSON-like values travelling in an MCP request payload.
Python `None` is `Value.none`. -/
inductive Value where
  | none
  | bool (b : Bool)
  | int (n : Int)
  | str (s : String)
  | list (xs : List Value)

/-- Python's `x is None` test. -/
def Value.isNone : Value → Bool
  | .none => true
  | _ => false

/-- Python type annotations, as the schema generator sees them. -/
inductive PyAnnot where
  | basic (name : String)
  | listOf (item : PyAnnot)
  | dictOf (key val : PyAnnot)
  | literal (values : List String)
  | custom (text : String)
  deriving DecidableEq

/-- CPython `typing._type_repr`: how an annotation renders inside a
`typing` generic (a bare class renders by name, e.g. `float`). -/
def PyAnnot.inner : PyAnnot → String
  | .basic name => name
  | .listOf item => "typing.List[" ++ item.inner ++ "]"
  | .dictOf key val => "typing.Dict[" ++ key.inner ++ ", " ++ val.inner ++ "]"
  | .literal values =>
      "typing.Literal[" ++
        joinSep ", " (values.map (fun v => "'" ++ v ++ "'")) ++ "]"
  | .custom text => text

/-- `str(annotation)`: a bare class renders as `<class 'name'>`, a
`typing` construct renders as its `typing._type_repr`. -/
def PyAnnot.pyStr : PyAnnot → String
  | .basic name => "<class '" ++ name ++ "'>"
  | a => a.inner

/-- One entry of `inspect.signature(func).parameters`, in declaration
order: name, annotation and default (`Option.none` = the `empty`
sentinel, i.e. a required parameter). -/
structure Param where
  name       : String
  annotation : PyAnnot
  default    : Option Value

/-- Python `dict.get(key)`: the stored value, or `None` when the key is
absent.  (`introspection.py` line 50: `arg_passed = mcp_arguments.get(arg_name)`.) -/
def pyGet (payload : List (String × Value)) (key : String) : Value :=
  match payload.lookup key with
  | Option.none => Value.none
  | Option.some v => v

/-- `introspection.get_mcp_func_args` (introspection.py 26-67): walk the
parameters in declaration order; a parameter whose looked-up value `is
None` takes its default (failing and breaking out of the loop when it has
none); any other looked-up value is appended unconverted. -/
def get_mcp_func_args :
    List Param → List (String × Value) → Bool × List Value
  | [], _ => (false, [])
  | p :: rest, mcp_arguments =>
    let arg_passed := pyGet mcp_arguments p.name
    if arg_passed.isNone then
      match p.default with
      | Option.none => (true, [])
      | Option.some d =>
        let r := get_mcp_func_args rest mcp_arguments
        (r.1, d :: r.2)
    else
      let r := get_mcp_func_args rest mcp_arguments
      (r.1, arg_passed :: r.2)

/-- `introspection.validate_mcp_arguments` (introspection.py 164-183):
the names, in declaration order, of parameters that have no default and
whose name is not a key of the payload (`param_name not in mcp_arguments`). -/
def validate_mcp_arguments
    (fun_params : List Param) (mcp_arguments : List (String × Value)) :
    List String :=
  ((fun_params.filter
      (fun p => p.default.isNone && (mcp_arguments.lookup p.name).isNone)).map
    (fun p => p.name))

/-! ## Doc Parser (`introspection.parse_markdown_docstring` and helpers) -/

/-- Python `str.expandtabs()` with the default tab size 8: a tab advances
to the next multiple of 8; the column resets after `\n` or `\r`. -/
def expandTabsAux : List Char → Nat → List Char
  | [], _ => []
  | c :: cs, col =>
    if c = '\t' then
      let pad := 8 - col % 8
      List.replicate pad ' ' ++ expandTabsAux cs (col + pad)
    else if c = '\n' || c = '\r' then
      c :: expandTabsAux cs 0
    else
      c :: expandTabsAux cs (col + 1)

/-- Python `str.expandtabs()`. -/
def expandTabs (s : String) : String :=
  ⟨expandTabsAux s.data 0⟩

/-- Python `str.split('\n')`: split into lines at every newline
(`"".split('\n') == ['']`). -/
def splitOnNl : List Char → List (List Char)
  | [] => [[]]
  | c :: rest =>
    let r := splitOnNl rest
    if c = '\n' then [] :: r
    else
      match r with
      | l :: ls => (c :: l) :: ls
      | [] => [[c]]

/-- Indentation of one line as `inspect.cleandoc` measures it:
`len(line) - len(line.lstrip())`, or `none` for a blank line
(`len(line.lstrip()) == 0`), which contributes no margin. -/
def lineIndent (line : List Char) : Option Nat :=
  let content := (line.dropWhile pyIsSpace).length
  if content = 0 then Option.none else Option.some (line.length - content)

/-- `inspect.cleandoc`: expand tabs, split into lines, strip the first
line's leading whitespace, remove the common margin of the remaining
non-blank lines, and drop leading and trailing blank lines. -/
def inspect_cleandoc (doc : String) : String :=
  let lines := splitOnNl (expandTabsAux doc.data 0)
  let margin := ((lines.drop 1).filterMap lineIndent).min?
  let lines1 :=
    match lines with
    | [] => []
    | l0 :: rest =>
      let rest1 :=
        match margin with
        | Option.none => rest
        | Option.some m => rest.map (fun (l : List Char) => l.drop m)
      l0.dropWhile pyIsSpace :: rest1
  let lines2 := ((lines1.reverse.dropWhile (· = [])).reverse).dropWhile (· = [])
  ⟨List.intercalate ['\n'] lines2⟩

/-- The prefix of the text before the first occurrence of `pat` (all of
it when `pat` does not occur) — the regex `(.*?)(?=PAT|$)` with DOTALL. -/
def beforeFirst (pat : List Char) : List Char → List Char
  | [] => []
  | c :: rest =>
    if pat.isPrefixOf (c :: rest) then []
    else c :: beforeFirst pat rest

/-- The index of the last occurrence of `c`, if any. -/
def lastIdx (c : Char) : List Char → Option Nat
  | [] => Option.none
  | x :: xs =>
    match lastIdx c xs with
    | Option.some n => Option.some (n + 1)
    | Option.none => if x = c then Option.some 0 else Option.none

/-- The largest index holding a character other than `'\n'`, if any. -/
def lastNonNewline : List Char → Option Nat
  | [] => Option.none
  | x :: xs =>
    match lastNonNewline xs with
    | Option.some n => Option.some (n + 1)
    | Option.none => if x ≠ '\n' then Option.some 0 else Option.none

/-- `re.search(header + r'\s*\n(.*?)(?=\n###|\Z)', cleaned, re.DOTALL)`:
the first occurrence of the literal `header` followed by a whitespace run
containing a newline; the captured body runs from just after the last
newline of that run up to (not including) the next `"\n###"`, or to the
end.  When the whitespace after an occurrence contains no newline the
engine keeps searching from the next position. -/
def sectionBodyL (header : List Char) : List Char → Option (List Char)
  | [] => Option.none
  | c :: rest =>
    if header.isPrefixOf (c :: rest) then
      let r := (c :: rest).drop header.length
      let ws := r.takeWhile pyIsSpace
      match lastIdx '\n' ws with
      | Option.some j =>
        Option.some (beforeFirst ['\n', '#', '#', '#'] (r.drop (j + 1)))
      | Option.none => sectionBodyL header rest
    else sectionBodyL header rest

/-- A character of the regex class `\w` (ASCII range). -/
def isWordChar (c : Char) : Bool :=
  c.isAlphanum || c = '_'

/-- The continuation lines of one parameter entry, per the regex tail
`(?:\n(?!\s*-)[^\n]+)*`: repeatedly consume a newline followed by a
non-empty line that does not begin, after optional whitespace, with a
dash.  Returns the consumed characters together with their count.  The
fuel argument only bounds the recursion and is always called with the
input length, which every step strictly consumes below. -/
def contLines : Nat → List Char → List Char × Nat
  | _, [] => ([], 0)
  | 0, _ => ([], 0)
  | fuel + 1, s =>
    match s with
    | '\n' :: t =>
      if (t.dropWhile pyIsSpace).head? = Option.some '-' then ([], 0)
      else
        let line := t.takeWhile (· ≠ '\n')
        if line.isEmpty then ([], 0)
        else
          let r := contLines fuel (t.drop line.length)
          ('\n' :: (line ++ r.1), 1 + line.length + r.2)
    | _ => ([], 0)

/-- One attempt of the bullet regex
`-\s*\*\*(\w+)\*\*:\s*([^\n]+(?:\n(?!\s*-)[^\n]+)*)` at a position just
after its leading dash: the parameter name, the raw group-2 text, and the
number of characters consumed after the dash.  The `\s*` after the colon
is greedy but backtracks so that group 2 can start with a non-newline
character. -/
def bulletAfterDash (s : List Char) : Option (String × List Char × Nat) :=
  let ws := s.takeWhile pyIsSpace
  match s.drop ws.length with
  | '*' :: '*' :: r2 =>
    let name := r2.takeWhile isWordChar
    if name.isEmpty then Option.none
    else
      match r2.drop name.length with
      | '*' :: '*' :: ':' :: r4 =>
        let k := (r4.takeWhile pyIsSpace).length
        let j? :=
          if (r4.drop k).isEmpty then lastNonNewline (r4.take k)
          else Option.some k
        match j? with
        | Option.none => Option.none
        | Option.some j =>
          let firstLine := (r4.drop j).takeWhile (· ≠ '\n')
          if firstLine.isEmpty then Option.none
          else
            let rest := r4.drop (j + firstLine.length)
            let cont := contLines rest.length rest
            Option.some (⟨name⟩, firstLine ++ cont.1,
              ws.length + 2 + name.length + 3 + j + firstLine.length + cont.2)
      | _ => Option.none
  | _ => Option.none

/-- `re.finditer` of the bullet pattern over the Args section text: scan
left to right, emitting every non-overlapping match, each description
whitespace-collapsed and stripped (`re.sub(r'\s+', ' ', ...).strip()`).
The fuel argument only bounds the recursion and is always called with
the input length, which every step strictly consumes below. -/
def findEntries : Nat → List Char → List (String × String)
  | _, [] => []
  | 0, _ => []
  | fuel + 1, c :: rest =>
    if c = '-' then
      match bulletAfterDash rest with
      | Option.some (name, raw, n) =>
        (name, ⟨collapseWsL raw⟩) :: findEntries fuel (rest.drop n)
      | Option.none => findEntries fuel rest
    else findEntries fuel rest

/-- Python truthiness `not docstring` for an optional string: true for
`None` and for `""`. -/
def pyFalsy (s : Option String) : Bool :=
  s.getD "" = ""

/-- Lookup in a Python dict built by repeated assignment (the last
binding of a key wins). -/
def dictGet (entries : List (String × String)) (key : String) : Option String :=
  entries.reverse.lookup key

/-- The structured result of `parse_markdown_docstring`. -/
structure ParsedDoc where
  description : String
  args : List (String × String)
  returns : String
  deriving DecidableEq

/-- `introspection.parse_markdown_docstring` (introspection.py 70-107):
description = stripped text before the first `###`; Args entries from the
bullet regex over the `### Args:` section; Returns = whitespace-collapsed
`### Returns:` section. -/
def parse_markdown_docstring (docstring : Option String) : ParsedDoc :=
  if pyFalsy docstring then ⟨"", [], ""⟩
  else
    let cleaned := inspect_cleandoc (docstring.getD "")
    let description := pyStrip ⟨beforeFirst ['#', '#', '#'] cleaned.data⟩
    let args :=
      match sectionBodyL "### Args:".data cleaned.data with
      | Option.none => []
      | Option.some body => findEntries body.length body
    let returns :=
      match sectionBodyL "### Returns:".data cleaned.data with
      | Option.none => ""
      | Option.some body => collapseWs ⟨body⟩
    ⟨description, args, returns⟩

/-- `introspection.extract_param_description` (introspection.py 110-122):
the parsed Args entry for the parameter, or the synthesized fallback. -/
def extract_param_description (docstring : Option String) (param_name : String) :
    String :=
  match dictGet (parse_markdown_docstring docstring).args param_name with
  | Option.some d => d
  | Option.none => "Parameter: " ++ param_name

/-! ## Schema Generator (`schema_generator.py`) -/

/-- Python's substring test `pat in s`. -/
def containsSub (pat : List Char) : List Char → Bool
  | [] => pat.isEmpty
  | c :: rest => pat.isPrefixOf (c :: rest) || containsSub pat rest

/-- Python `s.startswith(pre)`. -/
def pyStartsWith (s pre : String) : Bool :=
  pre.data.isPrefixOf s.data

/-- `introspection.convert_type_annotation` (introspection.py 125-161):
substring checks on `str(annotation)`, container markers before primitive
markers, with a direct identity comparison against the builtin classes as
the documented defensive first disjunct. -/
def convert_type_annot (type_annot : PyAnnot) : String :=
  let type_str := type_annot.pyStr
  if containsSub "List".data type_str.data || containsSub "list".data type_str.data then
    "array"
  else if containsSub "Dict".data type_str.data || containsSub "dict".data type_str.data then
    "object"
  else if type_annot = .basic "float" || containsSub "float".data type_str.data then
    "number"
  else if type_annot = .basic "int" || containsSub "int".data type_str.data then
    "integer"
  else if type_annot = .basic "str" || containsSub "str".data type_str.data then
    "string"
  else if type_annot = .basic "bool" || containsSub "bool".data type_str.data then
    "boolean"
  else
    "string"

/-- A value stored in a generated property-schema dictionary: the type and
description strings, or the enum list of literal values. -/
inductive SchemaValue where
  | str (s : String)
  | strList (vs : List String)
  deriving DecidableEq

/-- A quote character, for Python `strip('\x27"')`. -/
def isQuoteChar (c : Char) : Bool :=
  c = Char.ofNat 39 || c = '"'

/-- Python `value.strip('\x27"')`: drop quote characters from both ends. -/
def stripQuotesL (s : List Char) : List Char :=
  ((s.dropWhile isQuoteChar).reverse.dropWhile isQuoteChar).reverse

/-- Python `str.split(sep)` for a one-character separator (keeps empty
pieces; `"".split(sep) == ['']`). -/
def splitOnChar (sep : Char) : List Char → List (List Char)
  | [] => [[]]
  | c :: rest =>
    let r := splitOnChar sep rest
    if c = sep then [] :: r
    else
      match r with
      | l :: ls => (c :: l) :: ls
      | [] => [[c]]

/-- `re.search(r'Literal\[(.*?)\]', type_str)` (no DOTALL, so the capture
cannot cross a newline): the text between the first `Literal[` and the
following `]`; an occurrence with no `]` before a newline is skipped and
the search continues. -/
def literalCapture : List Char → Option (List Char)
  | [] => Option.none
  | c :: rest =>
    if "Literal[".data.isPrefixOf (c :: rest) then
      let r := (c :: rest).drop 8
      let cap := r.takeWhile (fun c2 => c2 ≠ ']' && c2 ≠ '\n')
      if (r.drop cap.length).head? = Option.some ']' then Option.some cap
      else literalCapture rest
    else literalCapture rest

/-- `schema_generator._extract_literal_values` (schema_generator.py 73-97):
capture the bracketed text, split on commas, strip whitespace then quote
characters from each piece, and keep the non-empty results. -/
def _extract_literal_values (type_str : String) : List String :=
  match literalCapture type_str.data with
  | Option.none => []
  | Option.some cap =>
    (((splitOnChar ',' cap).map (fun v => stripQuotesL (pyStripL v))).filter
        (fun v => v ≠ [])).map
      (fun v => (⟨v⟩ : String))

/-- `schema_generator._get_function_description` (schema_generator.py
100-123): `ValueError` (as `Except.error`) when the docstring is missing
or empty, or when it parses to an empty description; otherwise the
whitespace-normalised description (`' '.join(description.split())`). -/
def _get_function_description (docstring : Option String) : Except String String :=
  if pyFalsy docstring then .error "Function is missing a docstring"
  else
    let description := (parse_markdown_docstring docstring).description
    if description = "" then .error "Docstring has no description section"
    else .ok ⟨collapseWsL description.data⟩

/-- The property dictionary built for one parameter by the loop of
`generate_mcp_tool_schema` (schema_generator.py 37-52): `{"type": ...,
"description": ...}`, plus an `"enum"` entry when `str(annotation)`
starts with `typing.Literal` and the extracted value list is non-empty. -/
def build_property (doc : Option String) (param : Param) :
    List (String × SchemaValue) :=
  let param_type := convert_type_annot param.annotation
  let param_description := extract_param_description doc param.name
  let base := [("type", SchemaValue.str param_type),
               ("description", SchemaValue.str param_description)]
  let annotation_str := param.annotation.pyStr
  if pyStartsWith annotation_str "typing.Literal" then
    let literal_values := _extract_literal_values annotation_str
    if literal_values.isEmpty then base
    else base ++ [("enum", SchemaValue.strList literal_values)]
  else base

/-- A registered FI function as the pipeline sees it: ordered parameters
(from `inspect.signature`), docstring (`__doc__`), and behaviour — an
`Except.error` result models an exception escaping the call. -/
structure FIFunction where
  params : List Param
  doc : Option String
  impl : List Value → Except String Value

/-- The dictionary returned by `generate_mcp_tool_schema`: `{"name",
"description", "parameters": {"type": "object", "properties", "required",
"additionalProperties": False}}`. -/
structure ToolSchema where
  name : String
  description : String
  properties : List (String × List (String × SchemaValue))
  required : List String
  additionalProperties : Bool
  deriving DecidableEq

/-- `schema_generator.generate_mcp_tool_schema` (schema_generator.py
21-70), the `ValueError` of `_get_function_description` surfaced as
`Except.error`: per-parameter property schemas in declaration order,
required = names of parameters with no default, tool name `fi_` +
function name. -/
def generate_mcp_tool_schema (func_name : String) (func : FIFunction) :
    Except String ToolSchema :=
  let properties := func.params.map (fun p => (p.name, build_property func.doc p))
  let required := (func.params.filter (fun p => p.default.isNone)).map (fun p => p.name)
  match _get_function_description func.doc with
  | .error e => .error e
  | .ok description =>
    .ok { name := "fi_" ++ func_name, description := description,
          properties := properties, required := required,
          additionalProperties := false }

/-- `schema_generator.generate_all_tool_schemas` (schema_generator.py
126-150): one schema per function keyed by its tool name, skipping (after
logging) every function whose schema generation raises. -/
def generate_all_tool_schemas (fi_functions : List (String × FIFunction)) :
    List (String × ToolSchema) :=
  fi_functions.filterMap (fun nf =>
    match generate_mcp_tool_schema nf.1 nf.2 with
    | .ok schema => Option.some (schema.name, schema)
    | .error _ => Option.none)

example :
    convert_type_annot (.listOf (.basic "float")) = "array" := by decide

example :
    convert_type_annot (.basic "float") = "number" := by decide

example :
    _extract_literal_values ((PyAnnot.literal ["monthly", "annual"]).pyStr)
      = ["monthly", "annual"] := by decide

/-! ## Tool Dispatcher (`server.py`) -/

/-- Python `s.replace(old, new)` for a non-empty `old`: replace every
non-overlapping occurrence, left to right.  The fuel argument only
bounds the recursion and is always called with the input length, which
every step strictly consumes below. -/
def replaceL (old new : List Char) : Nat → List Char → List Char
  | _, [] => []
  | 0, s => s
  | fuel + 1, c :: rest =>
    if old.isPrefixOf (c :: rest) then
      new ++ replaceL old new fuel (rest.drop (old.length - 1))
    else
      c :: replaceL old new fuel rest

/-- Python `s.replace(old, new)`. -/
def pyReplace (s old new : String) : String :=
  ⟨replaceL old.data new.data s.data.length s.data⟩

/-- Python `str.title()` over ASCII: the first letter of every run of
letters is uppercased and the following letters are lowercased. -/
def pyTitleAux : List Char → Bool → List Char
  | [], _ => []
  | c :: rest, prevAlpha =>
    if c.isAlpha then
      (if prevAlpha then c.toLower else c.toUpper) :: pyTitleAux rest true
    else
      c :: pyTitleAux rest false

/-- `server._format_function_name` (server.py 63-81): underscores become
spaces, title case, then the hardcoded abbreviation replacements
`Fi → FI` and `Pot → POT`. -/
def _format_function_name (func_name : String) : String :=
  let spaced := replaceL ['_'] [' '] func_name.data.length func_name.data
  let formatted : String := ⟨pyTitleAux spaced false⟩
  let formatted := pyReplace formatted "Fi" "FI"
  pyReplace formatted "Pot" "POT"

/-- `server.NO_DOCUMENTATION_AVAILABLE` (server.py 25). -/
def NO_DOCUMENTATION_AVAILABLE : String := "No documentation available."

/-- `server._get_function_docstring` (server.py 84-94): the cleaned
docstring, or the fixed placeholder when there is none. -/
def _get_function_docstring (func : FIFunction) : String :=
  if pyFalsy func.doc then NO_DOCUMENTATION_AVAILABLE
  else inspect_cleandoc (func.doc.getD "")

/-- `server._format_function_help` (server.py 97-114): a markdown heading
with the display name, a blank line, then the docstring. -/
def _format_function_help (func_name : String) (func : FIFunction)
    (heading_level : Nat) : String :=
  let docstring := _get_function_docstring func
  let display_name := _format_function_name func_name
  let heading : String := ⟨List.replicate heading_level '#'⟩
  heading ++ " " ++ display_name ++ "\n\n" ++ docstring

/-- One `ReadResourceContents(content=..., mime_type="text/markdown")`. -/
structure ReadResourceContents where
  content : String
  mime_type : String
  deriving DecidableEq

/-- `server.read_resource` (server.py 164-199), its `ValueError` as
`Except.error`.  The function name is recovered with `str.replace`
(every occurrence of the scheme prefix is removed, not only the leading
one); `"all"` yields every function's level-2 help block in name-sorted
order joined by the `"\n\n---\n\n"` divider. -/
def read_resource (fi_functions : List (String × FIFunction)) (uri : String) :
    Except String (List ReadResourceContents) :=
  if ¬ pyStartsWith uri "fi://help/" then
    .error ("Unknown resource URI: " ++ uri)
  else
    let func_name := pyReplace uri "fi://help/" ""
    if func_name = "all" then
      let sortedFns := fi_functions.mergeSort (fun a b => a.1 ≤ b.1)
      let all_help := sortedFns.map (fun nf => _format_function_help nf.1 nf.2 2)
      let content := joinSep "\n\n---\n\n" all_help
      .ok [⟨content, "text/markdown"⟩]
    else
      match fi_functions.lookup func_name with
      | Option.some func =>
        .ok [⟨_format_function_help func_name func 1, "text/markdown"⟩]
      | Option.none => .error ("Unknown function: " ++ func_name)

/-- Python `repr` of a payload value, depth-fueled (`sizeOf` always
dominates the list nesting depth, so the fuel never runs out). -/
def Value.pyReprAux : Nat → Value → String
  | _, .none => "None"
  | _, .bool b => if b then "True" else "False"
  | _, .int n => toString n
  | _, .str s => ⟨Char.ofNat 39 :: (s.data ++ [Char.ofNat 39])⟩
  | 0, .list _ => ""
  | fuel + 1, .list xs =>
    "[" ++ joinSep ", " (xs.map (Value.pyReprAux fuel)) ++ "]"

mutual
/-- A size measure dominating the list nesting depth, used as fuel. -/
def Value.fuelSize : Value → Nat
  | .none => 1
  | .bool _ => 1
  | .int _ => 1
  | .str _ => 1
  | .list xs => 1 + Value.fuelSizeList xs

/-- Sum of `Value.fuelSize` over a list. -/
def Value.fuelSizeList : List Value → Nat
  | [] => 0
  | v :: vs => Value.fuelSize v + Value.fuelSizeList vs
end

/-- Python `str(result)` as `call_tool` renders it: a string result is
returned as is, containers render `repr`-style. -/
def Value.pyToString (v : Value) : String :=
  match v with
  | .str s => s
  | v => Value.pyReprAux v.fuelSize v

/-- One `TextContent(type="text", text=...)` item. -/
structure TextContent where
  type : String
  text : String
  deriving DecidableEq

/-- The outcome of the `call_tool` handler: a content list, or an
exception propagated out of the handler. -/
inductive CallToolResult where
  | content (items : List TextContent)
  | raised (msg : String)
  deriving DecidableEq

/-- `server.call_tool` (server.py 202-255).  The two name checks raise
`ValueError` before the `try` block; inside it, missing required
arguments, a binder failure, and an exception from the called function
are each rendered as a single `"Error: ..."` text item. -/
def call_tool (fi_functions : List (String × FIFunction)) (name : String)
    (arguments : List (String × Value)) : CallToolResult :=
  if ¬ pyStartsWith name "fi_" then
    .raised ("Invalid tool name: " ++ name)
  else
    let func_name : String := ⟨name.data.drop 3⟩
    match fi_functions.lookup func_name with
    | Option.none => .raised ("Unknown function: " ++ func_name)
    | Option.some function_to_call =>
      let fun_params := function_to_call.params
      let missing_args := validate_mcp_arguments fun_params arguments
      if ¬ missing_args.isEmpty then
        .content [⟨"text",
          "Error: " ++ ("Missing required arguments: " ++
            joinSep ", " missing_args)⟩]
      else
        let r := get_mcp_func_args fun_params arguments
        if r.1 then
          .content [⟨"text", "Error: Failed to convert arguments"⟩]
        else
          match function_to_call.impl r.2 with
          | .ok result => .content [⟨"text", result.pyToString⟩]
          | .error e =>
            .content [⟨"text",
              "Error: " ++ ("Error executing " ++ name ++ ": " ++ e)⟩]

example :
    parse_markdown_docstring
      (Option.some "Computes.\n\n### Args:\n- **x**: the x.\n\n### Returns:\nA value.")
      = ⟨"Computes.", [("x", "the x.")], "A value."⟩ := by decide

example :
    extract_param_description (Option.some "Computes.") "present_value"
      = "Parameter: present_value" := by decide

example :
    validate_mcp_arguments
      [⟨"present_value", .basic "float", Option.none⟩,
       ⟨"annual_rate", .basic "float", Option.none⟩]
      [] = ["present_value", "annual_rate"] := by decide

/-! ## Helper lemmas about the argument binder -/

/-- The value the binder appends for one parameter when it does not fail
on it: the payload value when that is not `None`, else the declared
default. -/
def boundValue (arguments : List (String × Value)) (p : Param) : Value :=
  if (pyGet arguments p.name).isNone then p.default.getD Value.none
  else pyGet arguments p.name

/-- A literal string value that survives the textual `Literal[...]`
extraction round trip: non-empty, free of comma, closing bracket and
newline, and with no quote character at either end. -/
def cleanLiteral (v : String) : Bool :=
  !v.data.isEmpty
    && v.data.all (fun c => !(c = ',') && !(c = ']') && !(c = '\n'))
    && !isQuoteChar (v.data.headD ' ')
    && !isQuoteChar (v.data.getLastD ' ')

theorem get_mcp_func_args_fst_false_iff (ps : List Param)
    (args : List (String × Value)) :
    (get_mcp_func_args ps args).1 = false
      ↔ ∀ p ∈ ps, (pyGet args p.name).isNone → p.default.isSome := by
  induction ps with
  | nil => simp [get_mcp_func_args]
  | cons p rest ih =>
    simp only [get_mcp_func_args]
    by_cases h : (pyGet args p.name).isNone
    · cases hd : p.default with
      | none => simp [h, hd]
      | some d => simp [h, hd, ih]
    · simp [h, ih]

theorem get_mcp_func_args_snd_of_fst_false (ps : List Param)
    (args : List (String × Value))
    (hok : (get_mcp_func_args ps args).1 = false) :
    (get_mcp_func_args ps args).2 = ps.map (boundValue args) := by
  induction ps with
  | nil => simp [get_mcp_func_args]
  | cons p rest ih =>
    simp only [get_mcp_func_args] at hok ⊢
    by_cases h : (pyGet args p.name).isNone
    · cases hd : p.default with
      | none => simp [h, hd] at hok
      | some d =>
        simp [h, hd] at hok ⊢
        exact ⟨by simp [boundValue, h, hd], ih hok⟩
    · simp [h] at hok ⊢
      exact ⟨by simp [boundValue, h], ih hok⟩

theorem get_mcp_func_args_of_required_missing (pre : List Param) (p : Param)
    (post : List Param) (args : List (String × Value))
    (hreq : p.default = Option.none) (habs : (pyGet args p.name).isNone)
    (hpre : ∀ q ∈ pre, (pyGet args q.name).isNone → q.default.isSome) :
    get_mcp_func_args (pre ++ p :: post) args
      = (true, pre.map (boundValue args)) := by
  induction pre with
  | nil => simp [get_mcp_func_args, habs, hreq]
  | cons q rest ih =>
    have hq := hpre q (by simp)
    have hrest : ∀ r ∈ rest, (pyGet args r.name).isNone → r.default.isSome :=
      fun r hr => hpre r (by simp [hr])
    simp only [List.cons_append, get_mcp_func_args]
    by_cases h : (pyGet args q.name).isNone
    · cases hd : q.default with
      | none => simp [hd, h] at hq
      | some d =>
        simp [h, hd, ih hrest]
        simp [boundValue, h, hd]
    · simp [h, ih hrest]
      simp [boundValue, h]

theorem lookup_eq_of_perm {l₁ l₂ : List (String × Value)} (h : l₁.Perm l₂)
    (nd : (l₁.map Prod.fst).Nodup) (k : String) :
    l₁.lookup k = l₂.lookup k := by
  induction h with
  | nil => rfl
  | cons x h ih =>
    obtain ⟨x1, x2⟩ := x
    simp only [List.map_cons, List.nodup_cons] at nd
    cases hk : k == x1 <;> simp [List.lookup, hk, ih nd.2]
  | swap x y rest =>
    obtain ⟨x1, x2⟩ := x
    obtain ⟨y1, y2⟩ := y
    simp only [List.map_cons, List.nodup_cons, List.mem_cons] at nd
    have hxy : y1 ≠ x1 := fun he => nd.1 (Or.inl he)
    cases hx : k == x1 <;> cases hy : k == y1 <;>
      simp only [List.lookup, hx, hy] <;>
      first
      | rfl
      | exact absurd ((beq_iff_eq.mp hy).symm.trans (beq_iff_eq.mp hx)) hxy
  | trans h₁ h₂ ih₁ ih₂ =>
    have nd₂ := ((h₁.map Prod.fst).nodup_iff).mp nd
    exact (ih₁ nd).trans (ih₂ nd₂)

theorem get_mcp_func_args_congr (ps : List Param)
    {args args' : List (String × Value)}
    (h : ∀ k, args.lookup k = args'.lookup k) :
    get_mcp_func_args ps args = get_mcp_func_args ps args' := by
  have hg : ∀ k, pyGet args k = pyGet args' k := fun k => by
    simp [pyGet, h k]
  induction ps with
  | nil => rfl
  | cons p rest ih => simp only [get_mcp_func_args, hg, ih]

example :
    get_mcp_func_args
      [⟨"a", .basic "int", Option.none⟩,
       ⟨"b", .basic "int", Option.some (.int 5)⟩]
      [("a", .int 1)] = (false, [.int 1, .int 5]) := rfl

/-! ## Lemmas about the literal-value extraction -/

theorem dropWhile_eq_self_of_head {α : Type} (p : α → Bool) (l : List α)
    (h : ∀ c, l.head? = Option.some c → ¬ p c) : l.dropWhile p = l := by
  cases l with
  | nil => rfl
  | cons c t => simp [List.dropWhile_cons, h c rfl]

theorem pyStripL_eq_self {s : List Char}
    (h1 : ∀ c, s.head? = Option.some c → ¬ pyIsSpace c)
    (h2 : ∀ c, s.getLast? = Option.some c → ¬ pyIsSpace c) :
    pyStripL s = s := by
  unfold pyStripL
  rw [dropWhile_eq_self_of_head _ _ h1]
  rw [dropWhile_eq_self_of_head _ _ (by simpa using h2)]
  exact List.reverse_reverse s

theorem takeWhile_append_all {α : Type} (p : α → Bool) {xs : List α}
    (ys : List α) (h : ∀ c ∈ xs, p c) :
    (xs ++ ys).takeWhile p = xs ++ ys.takeWhile p := by
  induction xs with
  | nil => simp
  | cons c rest ih =>
    simp [List.takeWhile_cons, h c (by simp),
      ih (fun d hd => h d (by simp [hd]))]

theorem literalCapture_typing (body : List Char)
    (hb : ∀ c ∈ body, c ≠ ']' ∧ c ≠ '\n') :
    literalCapture ("typing.Literal[".data ++ (body ++ [']']))
      = Option.some body := by
  have hcap : (body ++ [']']).takeWhile (fun c2 => c2 ≠ ']' && c2 ≠ '\n')
      = body := by
    rw [takeWhile_append_all _ _ (fun c hc => by simp [(hb c hc).1, (hb c hc).2])]
    simp [List.takeWhile_cons]
  have hpre : ("Literal[".data.isPrefixOf
      ('L' :: 'i' :: 't' :: 'e' :: 'r' :: 'a' :: 'l' :: '[' :: (body ++ [']']))) = true := by
    simp [List.isPrefixOf]
  show literalCapture ('L' :: 'i' :: 't' :: 'e' :: 'r' :: 'a' :: 'l' :: '[' :: (body ++ [']']))
      = Option.some body
  simp only [literalCapture, hpre, if_true, List.drop_succ_cons, List.drop_zero]
  rw [hcap, List.drop_left]
  rfl

theorem splitOnChar_cons_ne (sep c : Char) (rest : List Char) (h : ¬ c = sep) :
    splitOnChar sep (c :: rest)
      = (c :: (splitOnChar sep rest).headD []) :: (splitOnChar sep rest).tail := by
  simp only [splitOnChar, h, if_neg]
  cases splitOnChar sep rest with
  | nil => rfl
  | cons l ls => rfl

theorem splitOnChar_all_ne (sep : Char) {xs : List Char}
    (h : ∀ c ∈ xs, ¬ c = sep) : splitOnChar sep xs = [xs] := by
  induction xs with
  | nil => rfl
  | cons c rest ih =>
    rw [splitOnChar_cons_ne sep c rest (h c (by simp)),
      ih (fun d hd => h d (by simp [hd]))]
    rfl

theorem splitOnChar_append_all (sep : Char) {xs : List Char} (ys : List Char)
    (h : ∀ c ∈ xs, ¬ c = sep) :
    splitOnChar sep (xs ++ ys)
      = (xs ++ (splitOnChar sep ys).headD []) :: (splitOnChar sep ys).tail := by
  induction xs with
  | nil =>
    simp only [List.nil_append]
    cases hys : splitOnChar sep ys with
    | nil =>
      exfalso
      cases ys <;> simp only [splitOnChar] at hys
      · cases hys
      · revert hys
        split <;> (intro hys; first | cases hys | (split at hys <;> cases hys))
    | cons l ls => rfl
  | cons c rest ih =>
    rw [List.cons_append, splitOnChar_cons_ne sep c (rest ++ ys) (h c (by simp)),
      ih (fun d hd => h d (by simp [hd]))]
    rfl

theorem splitOnChar_joinSep (v : String) (vs : List String)
    (hv : ∀ u ∈ v :: vs, ∀ c ∈ u.data, ¬ c = ',') :
    splitOnChar ',' (joinSep ", " (v :: vs)).data
      = v.data :: vs.map (fun u => ' ' :: u.data) := by
  induction vs generalizing v with
  | nil => exact splitOnChar_all_ne ',' (hv v (by simp))
  | cons w rest ih =>
    have hjoin : (joinSep ", " (v :: w :: rest)).data
        = v.data ++ (',' :: ' ' :: (joinSep ", " (w :: rest)).data) := by
      show ((v ++ ", ") ++ joinSep ", " (w :: rest)).data = _
      rw [String.data_append, String.data_append]
      simp
    rw [hjoin,
      splitOnChar_append_all ',' _ (hv v (by simp))]
    have hsep : splitOnChar ',' (',' :: ' ' :: (joinSep ", " (w :: rest)).data)
        = [] :: splitOnChar ',' (' ' :: (joinSep ", " (w :: rest)).data) := by
      simp [splitOnChar]
    rw [hsep]
    have hih := ih w (fun u hu => hv u (by simp at hu ⊢; tauto))
    rw [splitOnChar_cons_ne ',' ' ' _ (by decide), hih]
    simp

theorem pyStripL_cons_space (w : List Char) : pyStripL (' ' :: w) = pyStripL w := by
  simp [pyStripL, List.dropWhile_cons, pyIsSpace]

theorem quoted_data (v : String) :
    ("'" ++ v ++ "'" : String).data
      = Char.ofNat 39 :: (v.data ++ [Char.ofNat 39]) := by
  rw [String.data_append, String.data_append]
  rfl

theorem pyStripL_quoted (v : String) :
    pyStripL (("'" ++ v ++ "'" : String).data) = ("'" ++ v ++ "'" : String).data := by
  rw [quoted_data]
  apply pyStripL_eq_self
  · intro c hc
    cases hc
    decide
  · intro c hc
    rw [show Char.ofNat 39 :: (v.data ++ [Char.ofNat 39])
        = (Char.ofNat 39 :: v.data) ++ [Char.ofNat 39] from rfl,
      List.getLast?_concat] at hc
    cases hc
    decide

theorem stripQuotesL_quoted (v : String) (hne : v.data ≠ [])
    (hh : ∀ c, v.data.head? = Option.some c → ¬ isQuoteChar c)
    (hl : ∀ c, v.data.getLast? = Option.some c → ¬ isQuoteChar c) :
    stripQuotesL (("'" ++ v ++ "'" : String).data) = v.data := by
  obtain ⟨c, t, hct⟩ := List.exists_cons_of_ne_nil hne
  rw [quoted_data]
  unfold stripQuotesL
  have hq : isQuoteChar (Char.ofNat 39) = true := by decide
  have h1 : (Char.ofNat 39 :: (v.data ++ [Char.ofNat 39])).dropWhile isQuoteChar
      = (v.data ++ [Char.ofNat 39]).dropWhile isQuoteChar := by
    simp [List.dropWhile_cons, hq]
  have h2 : (v.data ++ [Char.ofNat 39]).dropWhile isQuoteChar
      = v.data ++ [Char.ofNat 39] := by
    apply dropWhile_eq_self_of_head
    intro d hd
    rw [hct, List.cons_append, List.head?_cons] at hd
    have hdc : c = d := by injection hd
    subst hdc
    exact hh c (by rw [hct]; rfl)
  rw [h1, h2]
  have h3 : (v.data ++ [Char.ofNat 39]).reverse
      = Char.ofNat 39 :: v.data.reverse := by
    simp
  rw [h3]
  have h4 : (Char.ofNat 39 :: v.data.reverse).dropWhile isQuoteChar
      = v.data.reverse.dropWhile isQuoteChar := by
    simp [List.dropWhile_cons, hq]
  rw [h4]
  have h5 : v.data.reverse.dropWhile isQuoteChar = v.data.reverse := by
    apply dropWhile_eq_self_of_head
    intro d hd
    rw [List.head?_reverse] at hd
    exact hl d hd
  rw [h5, List.reverse_reverse]

theorem joinSep_data_chars (f : Char → Prop) (sep : String) (us : List String)
    (hsep : ∀ c ∈ sep.data, f c) (h : ∀ u ∈ us, ∀ c ∈ u.data, f c) :
    ∀ c ∈ (joinSep sep us).data, f c := by
  induction us with
  | nil => intro c hc; cases hc
  | cons u rest ih =>
    cases rest with
    | nil =>
      intro c hc
      exact h u (by simp) c hc
    | cons w r =>
      intro c hc
      rw [show joinSep sep (u :: w :: r) = u ++ sep ++ joinSep sep (w :: r)
          from rfl] at hc
      rw [String.data_append, String.data_append] at hc
      rcases List.mem_append.mp hc with hc2 | hc2
      · rcases List.mem_append.mp hc2 with hc3 | hc3
        · exact h u (by simp) c hc3
        · exact hsep c hc3
      · exact ih (fun u2 hu2 => h u2 (by simp [hu2])) c hc2

theorem cleanLiteral_spec {v : String} (h : cleanLiteral v = true) :
    v.data ≠ [] ∧ (∀ c ∈ v.data, ¬ c = ',' ∧ ¬ c = ']' ∧ ¬ c = '\n')
      ∧ (∀ c, v.data.head? = Option.some c → ¬ isQuoteChar c)
      ∧ (∀ c, v.data.getLast? = Option.some c → ¬ isQuoteChar c) := by
  simp only [cleanLiteral, Bool.and_eq_true, Bool.not_eq_true',
    List.all_eq_true] at h
  obtain ⟨⟨⟨hne, hall⟩, hh⟩, hl⟩ := h
  refine ⟨?_, ?_, ?_, ?_⟩
  · intro he
    rw [he] at hne
    cases hne
  · intro c hc
    have := hall c hc
    simp only [Bool.and_eq_true, Bool.not_eq_true', decide_eq_false_iff_not]
      at this
    tauto
  · intro c hc
    have hd : v.data.headD ' ' = c := by
      rw [List.headD_eq_head?, hc]
      rfl
    rw [hd] at hh
    simp [hh]
  · intro c hc
    have hd : v.data.getLastD ' ' = c := by
      rw [List.getLastD_eq_getLast?, hc]
      rfl
    rw [hd] at hl
    simp [hl]

theorem literal_pyStr_data (vs : List String) :
    ((PyAnnot.literal vs).pyStr).data
      = "typing.Literal[".data
        ++ ((joinSep ", " (vs.map (fun u => "'" ++ u ++ "'"))).data ++ [']']) := by
  show ("typing.Literal[" ++ joinSep ", " (vs.map (fun u => "'" ++ u ++ "'"))
      ++ "]").data = _
  rw [String.data_append, String.data_append, List.append_assoc]

theorem extract_literal_values_clean (v : String) (vrest : List String)
    (hclean : ∀ u ∈ v :: vrest, cleanLiteral u) :
    _extract_literal_values ((PyAnnot.literal (v :: vrest)).pyStr)
      = v :: vrest := by
  have hchars : ∀ c ∈ (joinSep ", "
      ((v :: vrest).map (fun u => "'" ++ u ++ "'"))).data,
      c ≠ ']' ∧ c ≠ '\n' := by
    apply joinSep_data_chars
    · intro c hc
      have : c = ',' ∨ c = ' ' := by
        rw [show (", " : String).data = [',', ' '] from rfl] at hc
        simpa using hc
      rcases this with rfl | rfl <;> exact ⟨by decide, by decide⟩
    · intro u hu c hc
      rw [List.mem_map] at hu
      obtain ⟨w, hw, rfl⟩ := hu
      rw [quoted_data] at hc
      have hws := cleanLiteral_spec (hclean w hw)
      rcases List.mem_cons.mp hc with rfl | hc2
      · exact ⟨by decide, by decide⟩
      · rcases List.mem_append.mp hc2 with hc3 | hc3
        · exact ⟨(hws.2.1 c hc3).2.1, (hws.2.1 c hc3).2.2⟩
        · rcases List.mem_singleton.mp hc3 with rfl
          exact ⟨by decide, by decide⟩
  have hcap := literalCapture_typing _ hchars
  have hsplit : splitOnChar ','
      (joinSep ", " ((v :: vrest).map (fun u => "'" ++ u ++ "'"))).data
      = ("'" ++ v ++ "'" : String).data
          :: (vrest.map (fun u => "'" ++ u ++ "'")).map (fun u => ' ' :: u.data) := by
    rw [List.map_cons]
    apply splitOnChar_joinSep
    intro u hu c hc
    have hex : ∃ w, w ∈ v :: vrest ∧ u = "'" ++ w ++ "'" := by
      rcases List.mem_cons.mp hu with rfl | hu2
      · exact ⟨v, by simp, rfl⟩
      · obtain ⟨w, hw, rfl⟩ := List.mem_map.mp hu2
        exact ⟨w, by simp [hw], rfl⟩
    obtain ⟨w, hw, rfl⟩ := hex
    rw [quoted_data] at hc
    have hws := cleanLiteral_spec (hclean w hw)
    rcases List.mem_cons.mp hc with rfl | hc2
    · decide
    · rcases List.mem_append.mp hc2 with hc3 | hc3
      · exact (hws.2.1 c hc3).1
      · rcases List.mem_singleton.mp hc3 with rfl
        decide
  have hstrip : ∀ w ∈ v :: vrest,
      stripQuotesL (pyStripL (("'" ++ w ++ "'" : String).data)) = w.data := by
    intro w hw
    have hws := cleanLiteral_spec (hclean w hw)
    rw [pyStripL_quoted]
    exact stripQuotesL_quoted w hws.1 hws.2.2.1 hws.2.2.2
  have hext : _extract_literal_values ((PyAnnot.literal (v :: vrest)).pyStr)
      = (((splitOnChar ','
            (joinSep ", " ((v :: vrest).map (fun u => "'" ++ u ++ "'"))).data).map
              (fun w => stripQuotesL (pyStripL w))).filter
            (fun w => w ≠ [])).map (fun w => (⟨w⟩ : String)) := by
    unfold _extract_literal_values
    rw [literal_pyStr_data, hcap]
  rw [hext, hsplit]
  rw [List.map_cons, hstrip v (by simp), List.map_map]
  have htail : (vrest.map (fun u => "'" ++ u ++ "'")).map
      ((fun w => stripQuotesL (pyStripL w)) ∘ (fun u => ' ' :: u.data))
      = vrest.map (fun u => u.data) := by
    rw [List.map_map]
    apply List.map_congr_left
    intro w hw
    show stripQuotesL (pyStripL (' ' :: ("'" ++ w ++ "'" : String).data)) = w.data
    rw [pyStripL_cons_space]
    exact hstrip w (by simp [hw])
  rw [htail]
  have hfilter : (v.data :: vrest.map (fun u => u.data)).filter
      (fun w => w ≠ []) = v.data :: vrest.map (fun u => u.data) := by
    rw [List.filter_eq_self]
    intro a ha
    rcases List.mem_cons.mp ha with rfl | ha2
    · simp [(cleanLiteral_spec (hclean v (by simp))).1]
    · rw [List.mem_map] at ha2
      obtain ⟨w, hw, rfl⟩ := ha2
      simp [(cleanLiteral_spec (hclean w (by simp [hw]))).1]
  rw [hfilter]
  rw [List.map_cons, List.map_map]
  show (⟨v.data⟩ : String) :: vrest.map (fun u => (⟨u.data⟩ : String)) = v :: vrest
  have hmapid : vrest.map (fun u => (⟨u.data⟩ : String)) = vrest := by
    show vrest.map (fun u => u) = vrest
    exact List.map_id vrest
  rw [hmapid]

/-! ## Lemmas about schema generation success -/

theorem get_description_ok_iff (doc : Option String) :
    (∃ s, _get_function_description doc = .ok s)
      ↔ (parse_markdown_docstring doc).description ≠ "" := by
  unfold _get_function_description
  by_cases hf : pyFalsy doc
  · simp [hf, parse_markdown_docstring]
  · by_cases hd : (parse_markdown_docstring doc).description = ""
    · simp [hf, hd]
    · simp [hf, hd]

theorem generate_ok_iff (n : String) (f : FIFunction) :
    (∃ s, generate_mcp_tool_schema n f = .ok s)
      ↔ (parse_markdown_docstring f.doc).description ≠ "" := by
  rw [← get_description_ok_iff]
  unfold generate_mcp_tool_schema
  cases hd : _get_function_description f.doc with
  | error e => simp [hd]
  | ok s => simp [hd]

theorem generate_name_of_ok {n : String} {f : FIFunction} {s : ToolSchema}
    (h : generate_mcp_tool_schema n f = .ok s) : s.name = "fi_" ++ n := by
  unfold generate_mcp_tool_schema at h
  cases hd : _get_function_description f.doc with
  | error e => rw [hd] at h; cases h
  | ok d => rw [hd] at h; cases h; rfl

/-! ## String lemmas about the `fi_` naming convention -/

theorem pyStartsWith_append (a b : String) :
    pyStartsWith (a ++ b) a = true := by
  simp only [pyStartsWith, String.data_append, List.isPrefixOf_iff_prefix]
  exact List.prefix_append _ _

theorem pyStartsWith_fi_append (n : String) :
    pyStartsWith ("fi_" ++ n) "fi_" = true :=
  pyStartsWith_append "fi_" n

theorem drop_three_fi_append (n : String) :
    (⟨("fi_" ++ n).data.drop 3⟩ : String) = n := rfl

theorem fi_append_inj {n₁ n₂ : String} (h : "fi_" ++ n₁ = "fi_" ++ n₂) :
    n₁ = n₂ := by
  have hd := congrArg String.data h
  rw [String.data_append, String.data_append] at hd
  have hd2 := List.append_cancel_left hd
  calc n₁ = ⟨n₁.data⟩ := rfl
    _ = ⟨n₂.data⟩ := by rw [hd2]
    _ = n₂ := rfl

/-! ## The claims -/

/-- C3: the binder processes parameters in declaration order.  Its result
is invariant under reordering of a duplicate-free payload; when every
parameter that looks up to `None` has a default, it succeeds with exactly
one bound value per parameter, in declaration order, each such parameter
contributing its declared default; and when a parameter with no default
looks up to `None` (in particular, is absent), it fails with `fail = true`
and stops, producing exactly the bound values of the parameters declared
before it and nothing further. -/
theorem binder_declaration_order (fun_params : List Param)
    (args args2 : List (String × Value)) (hperm : args.Perm args2)
    (hnd : (args.map Prod.fst).Nodup) :
    get_mcp_func_args fun_params args = get_mcp_func_args fun_params args2
    ∧ ((∀ p ∈ fun_params, (pyGet args p.name).isNone → p.default.isSome) →
        get_mcp_func_args fun_params args
          = (false, fun_params.map (boundValue args)))
    ∧ (∀ pre p post, fun_params = pre ++ p :: post →
        p.default = Option.none → (pyGet args p.name).isNone →
        (∀ q ∈ pre, (pyGet args q.name).isNone → q.default.isSome) →
        get_mcp_func_args fun_params args = (true, pre.map (boundValue args))) := by
  refine ⟨get_mcp_func_args_congr fun_params (lookup_eq_of_perm hperm hnd),
    ?_, ?_⟩
  · intro hall
    have hf : (get_mcp_func_args fun_params args).1 = false :=
      (get_mcp_func_args_fst_false_iff fun_params args).mpr hall
    have hs := get_mcp_func_args_snd_of_fst_false fun_params args hf
    exact Prod.ext hf hs
  · intro pre p post hsplit hreq habs hpre
    subst hsplit
    exact get_mcp_func_args_of_required_missing pre p post args hreq habs hpre

/-- Witness for `binder_declaration_order`: with parameters `a` (required)
then `b` (default 5) and the payload listing `b` before `a`, binding
succeeds with the arguments in declaration order; with `a` required and an
empty payload, binding fails producing no arguments. -/
theorem binder_declaration_order_witness :
    get_mcp_func_args
        [⟨"a", .basic "int", Option.none⟩, ⟨"b", .basic "int", Option.some (.int 5)⟩]
        [("b", .int 2), ("a", .int 1)]
      = (false, [.int 1, .int 2])
    ∧ get_mcp_func_args [⟨"a", .basic "int", Option.none⟩] [] = (true, []) := by
  constructor
  · have h := binder_declaration_order
      [⟨"a", .basic "int", Option.none⟩, ⟨"b", .basic "int", Option.some (.int 5)⟩]
      [("b", .int 2), ("a", .int 1)] [("a", .int 1), ("b", .int 2)]
      (List.Perm.swap ("a", Value.int 1) ("b", Value.int 2) []) (by decide)
    exact (h.2.1 (by decide)).trans rfl
  · have h := binder_declaration_order [⟨"a", .basic "int", Option.none⟩] [] []
      (List.Perm.refl []) (by decide)
    exact (h.2.2 [] ⟨"a", .basic "int", Option.none⟩ [] rfl rfl (by decide)
      (by decide)).trans rfl

/-- C5: `validate_mcp_arguments` returns exactly the names of the
parameters that have no default and are absent from the payload — no
fewer and no more — and on required parameters `present_value` and
`annual_rate` with a payload containing neither, it returns exactly
those two names. -/
theorem validate_mcp_arguments_exact (fun_params : List Param)
    (mcp_arguments : List (String × Value)) (s : String) :
    (s ∈ validate_mcp_arguments fun_params mcp_arguments
      ↔ ∃ p ∈ fun_params, p.name = s ∧ p.default = Option.none
          ∧ mcp_arguments.lookup p.name = Option.none)
    ∧ (mcp_arguments.lookup "present_value" = Option.none →
        mcp_arguments.lookup "annual_rate" = Option.none →
        validate_mcp_arguments
          [⟨"present_value", .basic "float", Option.none⟩,
           ⟨"annual_rate", .basic "float", Option.none⟩]
          mcp_arguments
          = ["present_value", "annual_rate"]) := by
  constructor
  · simp only [validate_mcp_arguments, List.mem_map, List.mem_filter,
      Bool.and_eq_true, Option.isNone_iff_eq_none]
    constructor
    · rintro ⟨p, ⟨hp, hdef, habs⟩, rfl⟩
      exact ⟨p, hp, rfl, hdef, habs⟩
    · rintro ⟨p, hp, rfl, hdef, habs⟩
      exact ⟨p, ⟨hp, hdef, habs⟩, rfl⟩
  · intro h1 h2
    simp [validate_mcp_arguments, h1, h2]

/-- Witness for `validate_mcp_arguments_exact` at the empty payload. -/
theorem validate_mcp_arguments_exact_witness :
    validate_mcp_arguments
      [⟨"present_value", .basic "float", Option.none⟩,
       ⟨"annual_rate", .basic "float", Option.none⟩]
      [] = ["present_value", "annual_rate"] :=
  (validate_mcp_arguments_exact [] [] "present_value").2 rfl rfl

/-- C6 as stated is false: with a parameter `x` having default `5` and a
payload in which `x` is present bound to Python `None`, the binder
appends the default `5`, not the provided value. -/
theorem binder_unconverted_counterexample :
    ([("x", Value.none)].lookup "x" = Option.some Value.none)
    ∧ get_mcp_func_args [⟨"x", .basic "float", Option.some (.int 5)⟩]
        [("x", Value.none)] = (false, [.int 5])
    ∧ Value.int 5 ≠ Value.none :=
  ⟨rfl, rfl, fun h => Value.noConfusion h⟩

/-- C6 amended: for every parameter whose looked-up payload value is
present and is not `None`, the binder appends exactly that value,
unconverted, at the parameter's declaration position; a parameter bound
to `None` in the payload is instead treated as absent. -/
theorem binder_appends_present_value (fun_params : List Param)
    (args : List (String × Value)) (i : Nat) (hi : i < fun_params.length)
    (hok : (get_mcp_func_args fun_params args).1 = false)
    (hv : ¬ (pyGet args fun_params[i].name).isNone) :
    (get_mcp_func_args fun_params args).2[i]?
      = Option.some (pyGet args fun_params[i].name) := by
  rw [get_mcp_func_args_snd_of_fst_false fun_params args hok]
  rw [List.getElem?_map, List.getElem?_eq_getElem hi]
  simp [boundValue, hv]

/-- Witness for `binder_appends_present_value`. -/
theorem binder_appends_present_value_witness :
    (get_mcp_func_args [⟨"x", .basic "int", Option.none⟩]
        [("x", .int 7)]).2[0]? = Option.some (.int 7) := by
  have h := binder_appends_present_value [⟨"x", .basic "int", Option.none⟩]
    [("x", .int 7)] 0 (by decide) rfl (by decide)
  exact h.trans rfl

/-- C7: when a required parameter (no default) is present in the payload
as a key whose value is `None`, `validate_mcp_arguments` (which tests key
membership) reports nothing missing — provided every other required
parameter is also a key — while `get_mcp_func_args` (which tests the
looked-up value against `None`) fails, so the dispatcher returns the
generic `"Error: Failed to convert arguments"` text rather than the named
missing-arguments error; and an optional parameter whose payload value is
`None` is bound to its declared default, not to `None`. -/
theorem none_valued_required_key (fi_functions : List (String × FIFunction))
    (fname : String) (f : FIFunction)
    (hlk : fi_functions.lookup fname = Option.some f)
    (arguments : List (String × Value))
    (hkeys : ∀ p ∈ f.params, p.default = Option.none →
      (arguments.lookup p.name).isSome)
    (p : Param) (hp : p ∈ f.params) (hreq : p.default = Option.none)
    (hnone : arguments.lookup p.name = Option.some Value.none) :
    validate_mcp_arguments f.params arguments = []
    ∧ (get_mcp_func_args f.params arguments).1 = true
    ∧ call_tool fi_functions ("fi_" ++ fname) arguments
        = .content [⟨"text", "Error: Failed to convert arguments"⟩]
    ∧ ∀ (ps : List Param) (args2 : List (String × Value)) (i : Nat)
        (hi : i < ps.length) (d : Value),
        (get_mcp_func_args ps args2).1 = false →
        ps[i].default = Option.some d →
        args2.lookup ps[i].name = Option.some Value.none →
        (get_mcp_func_args ps args2).2[i]? = Option.some d := by
  have hval : validate_mcp_arguments f.params arguments = [] := by
    simp only [validate_mcp_arguments, List.map_eq_nil_iff, List.filter_eq_nil_iff]
    intro q hq
    simp only [Bool.and_eq_true, Option.isNone_iff_eq_none, not_and]
    intro hqd
    have := hkeys q hq (by simpa using hqd)
    simp_all
  have hfail : (get_mcp_func_args f.params arguments).1 = true := by
    cases hb : (get_mcp_func_args f.params arguments).1 with
    | true => rfl
    | false =>
      have hall := (get_mcp_func_args_fst_false_iff f.params arguments).mp hb
      have := hall p hp (by simp [pyGet, hnone, Value.isNone])
      simp [hreq] at this
  refine ⟨hval, hfail, ?_, ?_⟩
  · have hpre := pyStartsWith_fi_append fname
    have hdrop := drop_three_fi_append fname
    simp only [call_tool, hpre, hdrop, hlk, hval, hfail]
    simp
  · intro ps args2 i hi d hok hd hlook
    rw [get_mcp_func_args_snd_of_fst_false ps args2 hok]
    rw [List.getElem?_map, List.getElem?_eq_getElem hi]
    simp [boundValue, pyGet, hlook, Value.isNone, hd]

/-- Witness for `none_valued_required_key`: function `f` with required
parameter `x` and optional `y` (default 5); payload `{x: None}`. -/
theorem none_valued_required_key_witness :
    validate_mcp_arguments [⟨"x", .basic "int", Option.none⟩] [("x", Value.none)] = []
    ∧ call_tool
        [("f", ⟨[⟨"x", .basic "int", Option.none⟩], Option.some "Does.",
          fun _ => .ok Value.none⟩)]
        "fi_f" [("x", Value.none)]
      = .content [⟨"text", "Error: Failed to convert arguments"⟩]
    ∧ (get_mcp_func_args [⟨"y", .basic "int", Option.some (.int 5)⟩]
        [("y", Value.none)]).2[0]? = Option.some (.int 5) := by
  have h := none_valued_required_key
    [("f", ⟨[⟨"x", .basic "int", Option.none⟩], Option.some "Does.",
      fun _ => .ok Value.none⟩)]
    "f" ⟨[⟨"x", .basic "int", Option.none⟩], Option.some "Does.",
      fun _ => .ok Value.none⟩ rfl [("x", Value.none)]
    (by intro q hq hd; simp only [List.mem_singleton] at hq; subst hq; rfl)
    ⟨"x", .basic "int", Option.none⟩ (by simp) rfl rfl
  exact ⟨h.1, h.2.2.1,
    h.2.2.2 [⟨"y", .basic "int", Option.some (.int 5)⟩] [("y", Value.none)] 0
      (by decide) (.int 5) rfl rfl rfl⟩

/-- C8: every generated tool name is the fixed prefix `fi_` followed by
the function name; stripping the prefix as the dispatcher does recovers
exactly the function name; the naming map is injective, so a tool name
maps back to exactly one registered function; and a tool name not
beginning with the prefix is rejected by `call_tool`. -/
theorem tool_name_round_trip (func_name : String) (func : FIFunction)
    (schema : ToolSchema)
    (hgen : generate_mcp_tool_schema func_name func = .ok schema)
    (fi_functions : List (String × FIFunction))
    (arguments : List (String × Value)) (other : String)
    (hother : ¬ pyStartsWith other "fi_") :
    schema.name = "fi_" ++ func_name
    ∧ (⟨schema.name.data.drop 3⟩ : String) = func_name
    ∧ (∀ n₁ n₂ : String, "fi_" ++ n₁ = "fi_" ++ n₂ → n₁ = n₂)
    ∧ call_tool fi_functions other arguments
        = .raised ("Invalid tool name: " ++ other) := by
  have hname : schema.name = "fi_" ++ func_name := by
    simp only [generate_mcp_tool_schema] at hgen
    cases hd : _get_function_description func.doc with
    | error e => rw [hd] at hgen; cases hgen
    | ok desc => rw [hd] at hgen; cases hgen; rfl
  refine ⟨hname, ?_, fun n₁ n₂ h => fi_append_inj h, ?_⟩
  · rw [hname]
    exact drop_three_fi_append func_name
  · simp [call_tool, hother]

/-- Witness for `tool_name_round_trip` on a parameterless documented
function and the prefix-free name `"bad"`. -/
theorem tool_name_round_trip_witness :
    (ToolSchema.mk "fi_future_value" "Computes future value." [] [] false).name
        = "fi_" ++ "future_value"
    ∧ call_tool [] "bad" [] = .raised ("Invalid tool name: " ++ "bad") := by
  have h := tool_name_round_trip "future_value"
    ⟨[], Option.some "Computes future value.", fun _ => .ok Value.none⟩
    (ToolSchema.mk "fi_future_value" "Computes future value." [] [] false)
    rfl [] [] "bad" (by decide)
  exact ⟨h.1, h.2.2.2⟩

/-- C1 as stated is false: for the invalid-name-prefix failure class the
`call_tool` handler raises a `ValueError` (the check sits before the
`try` block) instead of returning a textual `"Error: ..."` content
item. -/
theorem call_tool_invalid_prefix_counterexample :
    call_tool [] "not_a_tool" [] = .raised "Invalid tool name: not_a_tool" := by
  decide

/-- C1 amended: of the five failure classes, missing required arguments,
an argument-binding failure, and an exception raised inside the called
function are each returned as a single text content item whose text
begins with `"Error: "`, and for those three classes the handler
propagates no exception; but an invalid name prefix and an unknown
function name are raised as `ValueError` out of the handler rather than
rendered as text. -/
theorem call_tool_failure_rendering (fi_functions : List (String × FIFunction))
    (name : String) (arguments : List (String × Value)) (f : FIFunction)
    (hpre : pyStartsWith name "fi_")
    (hlk : fi_functions.lookup (⟨name.data.drop 3⟩ : String) = Option.some f) :
    (¬ (validate_mcp_arguments f.params arguments).isEmpty →
      ∃ t, call_tool fi_functions name arguments = .content [⟨"text", t⟩]
        ∧ pyStartsWith t "Error: ")
    ∧ ((validate_mcp_arguments f.params arguments).isEmpty →
        (get_mcp_func_args f.params arguments).1 = true →
        call_tool fi_functions name arguments
          = .content [⟨"text", "Error: Failed to convert arguments"⟩])
    ∧ (∀ e, (validate_mcp_arguments f.params arguments).isEmpty →
        (get_mcp_func_args f.params arguments).1 = false →
        f.impl (get_mcp_func_args f.params arguments).2 = .error e →
        call_tool fi_functions name arguments
          = .content [⟨"text",
              "Error: " ++ ("Error executing " ++ name ++ ": " ++ e)⟩])
    ∧ (∀ nm, ¬ pyStartsWith nm "fi_" →
        call_tool fi_functions nm arguments
          = .raised ("Invalid tool name: " ++ nm))
    ∧ (∀ nm, pyStartsWith nm "fi_" →
        fi_functions.lookup (⟨nm.data.drop 3⟩ : String) = Option.none →
        call_tool fi_functions nm arguments
          = .raised ("Unknown function: " ++ (⟨nm.data.drop 3⟩ : String))) := by
  refine ⟨?_, ?_, ?_, ?_, ?_⟩
  · intro hmiss
    refine ⟨"Error: " ++ ("Missing required arguments: " ++
      joinSep ", " (validate_mcp_arguments f.params arguments)),
      ?_, pyStartsWith_append _ _⟩
    simp [call_tool, hpre, hlk, hmiss]
  · intro hval hfail
    simp [call_tool, hpre, hlk, hval, hfail]
  · intro e hval hok himpl
    simp [call_tool, hpre, hlk, hval, hok, himpl]
  · intro nm hnm
    simp [call_tool, hnm]
  · intro nm hnm hnone
    simp [call_tool, hnm, hnone]

/-- Witness for `call_tool_failure_rendering`: function `f` with required
parameter `x` whose implementation raises `"boom"`. -/
theorem call_tool_failure_rendering_witness :
    call_tool
        [("f", ⟨[⟨"x", .basic "int", Option.none⟩], Option.some "Does.",
          fun _ => .error "boom"⟩)]
        "fi_f" []
      = .content [⟨"text", "Error: Missing required arguments: x"⟩]
    ∧ call_tool
        [("f", ⟨[⟨"x", .basic "int", Option.none⟩], Option.some "Does.",
          fun _ => .error "boom"⟩)]
        "fi_f" [("x", .int 1)]
      = .content [⟨"text", "Error: Error executing fi_f: boom"⟩]
    ∧ call_tool
        [("f", ⟨[⟨"x", .basic "int", Option.none⟩], Option.some "Does.",
          fun _ => .error "boom"⟩)]
        "fi_g" []
      = .raised "Unknown function: g" := by
  have h := call_tool_failure_rendering
    [("f", ⟨[⟨"x", .basic "int", Option.none⟩], Option.some "Does.",
      fun _ => .error "boom"⟩)]
    "fi_f" [("x", .int 1)]
    ⟨[⟨"x", .basic "int", Option.none⟩], Option.some "Does.",
      fun _ => .error "boom"⟩
    (by decide) rfl
  refine ⟨?_, ?_, ?_⟩
  · have h2 := call_tool_failure_rendering
      [("f", ⟨[⟨"x", .basic "int", Option.none⟩], Option.some "Does.",
        fun _ => .error "boom"⟩)]
      "fi_f" []
      ⟨[⟨"x", .basic "int", Option.none⟩], Option.some "Does.",
        fun _ => .error "boom"⟩
      (by decide) rfl
    obtain ⟨t, ht, hpre⟩ := h2.1 (by decide)
    rw [ht]
    have : t = "Error: Missing required arguments: x" := by
      have := ht.symm.trans (by decide :
        call_tool
          [("f", ⟨[⟨"x", .basic "int", Option.none⟩], Option.some "Does.",
            fun _ => .error "boom"⟩)]
          "fi_f" []
        = .content [⟨"text", "Error: Missing required arguments: x"⟩])
      cases this
      rfl
    rw [this]
  · exact (h.2.2.1 "boom" rfl rfl rfl).trans (by decide)
  · exact h.2.2.2.2 "fi_g" (by decide) rfl

/-- C2: at the failing input — a parameter `taxes_and_fees` whose
declared type is `List[float]` — the generated property schema is
`{"type": "array", "description": ...}` with no `"items"` entry at all.
Container-type detection does take precedence (the type is `"array"`,
never `"number"`), but the `"items": {"type": "number"}` sub-schema that
the claim, the spec and the repository's own test
`test_array_parameter_handling` require is never constructed. -/
theorem array_property_has_no_items :
    build_property (Option.some "Takes home pay.")
        ⟨"taxes_and_fees", .listOf (.basic "float"), Option.none⟩
      = [("type", SchemaValue.str "array"),
         ("description", SchemaValue.str "Parameter: taxes_and_fees")]
    ∧ (build_property (Option.some "Takes home pay.")
          ⟨"taxes_and_fees", .listOf (.basic "float"), Option.none⟩).lookup "items"
        = Option.none
    ∧ convert_type_annot (.listOf (.basic "float")) = "array"
    ∧ convert_type_annot (.listOf (.basic "float")) ≠ "number" := by
  refine ⟨by decide, by decide, by decide, by decide⟩

/-- C9 as stated is false: for the enumerated-literal type `Literal['']`
(a single empty-string literal value) the generated property schema
contains no enumerated-values list at all — the one extracted value
strips to the empty string and is discarded, so the `enum` key is never
set even though the declared type is an enumerated-literal type. -/
theorem literal_empty_value_counterexample :
    build_property (Option.some "Does.") ⟨"mode", .literal [""], Option.none⟩
      = [("type", SchemaValue.str "string"),
         ("description", SchemaValue.str "Parameter: mode")]
    ∧ (build_property (Option.some "Does.")
          ⟨"mode", .literal [""], Option.none⟩).lookup "enum" = Option.none := by
  refine ⟨by decide, by decide⟩

/-- C9 amended: for an enumerated-literal parameter type whose declared
values are non-empty, comma-, bracket- and newline-free, and unquoted at
their ends, the extraction recovers exactly the declared values (with
their surrounding quote characters stripped) and the generated property
schema carries them as its non-empty `enum` list.  (A value outside
those bounds — e.g. the empty literal of the counterexample — can leave
the enum absent or altered.) -/
theorem literal_enum_population (doc : Option String) (pname : String)
    (d : Option Value) (v : String) (vrest : List String)
    (hclean : ∀ u ∈ v :: vrest, cleanLiteral u) :
    _extract_literal_values ((PyAnnot.literal (v :: vrest)).pyStr)
        = v :: vrest
    ∧ (build_property doc ⟨pname, .literal (v :: vrest), d⟩).lookup "enum"
        = Option.some (SchemaValue.strList (v :: vrest))
    ∧ v :: vrest ≠ [] := by
  have hex := extract_literal_values_clean v vrest hclean
  refine ⟨hex, ?_, by simp⟩
  have hsw : pyStartsWith ((PyAnnot.literal (v :: vrest)).pyStr)
      "typing.Literal" = true := by
    simp only [pyStartsWith, List.isPrefixOf_iff_prefix]
    refine ⟨'[' :: ((joinSep ", "
      ((v :: vrest).map (fun u => "'" ++ u ++ "'"))).data ++ [']']), ?_⟩
    rw [literal_pyStr_data]
    rfl
  have hbp : build_property doc ⟨pname, .literal (v :: vrest), d⟩
      = [("type", SchemaValue.str
            (convert_type_annot (.literal (v :: vrest)))),
         ("description", SchemaValue.str (extract_param_description doc pname)),
         ("enum", SchemaValue.strList (v :: vrest))] := by
    unfold build_property
    simp only [hsw, if_true, hex]
    rfl
  rw [hbp]
  simp only [List.lookup,
    show (("enum" : String) == "type") = false from by decide,
    show (("enum" : String) == "description") = false from by decide,
    show (("enum" : String) == "enum") = true from by decide]

/-- Witness for `literal_enum_population` on `Literal['monthly', 'annual']`. -/
theorem literal_enum_population_witness :
    _extract_literal_values ((PyAnnot.literal ["monthly", "annual"]).pyStr)
      = ["monthly", "annual"]
    ∧ (build_property (Option.some "Does.")
          ⟨"frequency", .literal ["monthly", "annual"], Option.none⟩).lookup "enum"
        = Option.some (SchemaValue.strList ["monthly", "annual"]) := by
  have h := literal_enum_population (Option.some "Does.") "frequency"
    Option.none "monthly" ["annual"] (by decide)
  exact ⟨h.1, h.2.1⟩

/-- C4: `generate_all_tool_schemas` produces a catalog entry exactly for
the functions whose docstring parses to a non-empty description
paragraph (in order, keyed by the `fi_`-prefixed tool name); a failing
function is skipped without aborting the rest, so the catalog size is at
most the function count, with equality when every function is
well-documented. -/
theorem generate_all_exact (fi_functions : List (String × FIFunction)) :
    (generate_all_tool_schemas fi_functions).map Prod.fst
      = (fi_functions.filter
          (fun nf => (parse_markdown_docstring nf.2.doc).description ≠ "")).map
        (fun nf => "fi_" ++ nf.1)
    ∧ (generate_all_tool_schemas fi_functions).length ≤ fi_functions.length
    ∧ ((∀ nf ∈ fi_functions,
          (parse_markdown_docstring nf.2.doc).description ≠ "") →
        (generate_all_tool_schemas fi_functions).length
          = fi_functions.length) := by
  have h1 : (generate_all_tool_schemas fi_functions).map Prod.fst
      = (fi_functions.filter
          (fun nf => (parse_markdown_docstring nf.2.doc).description ≠ "")).map
        (fun nf => "fi_" ++ nf.1) := by
    induction fi_functions with
    | nil => rfl
    | cons nf rest ih =>
      obtain ⟨n, f⟩ := nf
      cases hg : generate_mcp_tool_schema n f with
      | ok s =>
        have hdesc : (parse_markdown_docstring f.doc).description ≠ "" :=
          (generate_ok_iff n f).mp ⟨s, hg⟩
        simp only [generate_all_tool_schemas, List.filterMap_cons, hg,
          List.filter_cons]
        simp only [generate_all_tool_schemas] at ih
        simp [hdesc, ih, generate_name_of_ok hg]
      | error e =>
        have hdesc : ¬ (parse_markdown_docstring f.doc).description ≠ "" := by
          intro hne
          obtain ⟨s, hs⟩ := (generate_ok_iff n f).mpr hne
          rw [hg] at hs
          cases hs
        simp only [generate_all_tool_schemas, List.filterMap_cons, hg,
          List.filter_cons]
        simp only [generate_all_tool_schemas] at ih
        simp [hdesc, ih]
  have hlen : (generate_all_tool_schemas fi_functions).length
      = (fi_functions.filter
          (fun nf => (parse_markdown_docstring nf.2.doc).description ≠ "")).length := by
    rw [← List.length_map (generate_all_tool_schemas fi_functions) Prod.fst, h1,
      List.length_map]
  refine ⟨h1, ?_, ?_⟩
  · rw [hlen]
    exact List.length_filter_le _ _
  · intro hall
    rw [hlen, List.filter_eq_self.mpr]
    intro nf hnf
    simpa using hall nf hnf

/-- Witness for `generate_all_exact`: one well-documented function and
one with no docstring — the catalog holds exactly the documented one. -/
theorem generate_all_exact_witness :
    (generate_all_tool_schemas
        [("good", ⟨[], Option.some "Does.", fun _ => .ok Value.none⟩),
         ("bad", ⟨[], Option.none, fun _ => .ok Value.none⟩)]).map Prod.fst
      = ["fi_good"]
    ∧ (generate_all_tool_schemas
        [("good", ⟨[], Option.some "Does.", fun _ => .ok Value.none⟩)]).length
      = 1 := by
  constructor
  · exact (generate_all_exact
      [("good", ⟨[], Option.some "Does.", fun _ => .ok Value.none⟩),
       ("bad", ⟨[], Option.none, fun _ => .ok Value.none⟩)]).1.trans (by decide)
  · exact ((generate_all_exact
      [("good", ⟨[], Option.some "Does.", fun _ => .ok Value.none⟩)]).2.2
      (by decide)).trans rfl

/-- C10: reading the aggregate help resource `fi://help/all` returns one
markdown content item whose text is the level-2 help block of every
registered function joined by the `\n\n---\n\n` divider, the blocks
taken from a name-sorted rearrangement of the registry: one block per
function, exactly once each (the sorted list is a permutation of the
registry), in ascending name order. -/
theorem read_resource_all (fi_functions : List (String × FIFunction)) :
    read_resource fi_functions "fi://help/all"
      = .ok [⟨joinSep "\n\n---\n\n"
          ((fi_functions.mergeSort (fun a b => a.1 ≤ b.1)).map
            (fun nf => _format_function_help nf.1 nf.2 2)), "text/markdown"⟩]
    ∧ (fi_functions.mergeSort (fun a b => a.1 ≤ b.1)).Perm fi_functions
    ∧ (fi_functions.mergeSort (fun a b => a.1 ≤ b.1)).Pairwise
        (fun a b => a.1 ≤ b.1) := by
  refine ⟨?_, List.mergeSort_perm fi_functions _, ?_⟩
  · have h1 : pyStartsWith "fi://help/all" "fi://help/" = true := by decide
    have h2 : pyReplace "fi://help/all" "fi://help/" "" = "all" := by decide
    simp [read_resource, h1, h2]
  · have hs := @List.sorted_mergeSort (String × FIFunction)
      (fun a b => a.1 ≤ b.1)
      (fun a b c hab hbc => by
        simp only [decide_eq_true_eq] at hab hbc ⊢
        exact le_trans hab hbc)
      (fun a b => by
        simp only [Bool.or_eq_true, decide_eq_true_eq]
        exact le_total a.1 b.1)
      fi_functions
    exact hs.imp (fun h => by simpa using h)

end FIMCP
